import Mathlib

/-!
Verification development for the FAN-Tianrui-FYP front end (a wiki-generator
client).  We give a shallow embedding of the client-side resilience layer:

* `parseContentSafely` — the payload normalizer of
  `src/frontend/src/components/WikiViewer.tsx` (lines 64-126);
* `fetchStructure`'s normalization step (same file, lines 141-163);
* `fetchPage`'s positional content-URL resolution (same file, lines 190-254)
  and the filename-matching variant of `src/unnamed/part_001` (lines 161-219);
* `getTaskStatus` of `src/frontend/src/lib/api.ts` (lines 85-104);
* the polling loop `pollStatus` of `src/frontend/src/app/page.tsx`
  (lines 95-122);
* the mermaid loader/renderer of `src/frontend/src/components/Mermaid.tsx`.

JavaScript values that flow through the untyped parts of the code are
modelled by `JsonVal`; JS truthiness, property access, string coercion and
`JSON.parse` are modelled explicitly.  Machine reals never matter here (the
only numeric fields are integral in every relevant input), so JS numbers are
modelled as `Int` and the JSON-number grammar is restricted to (signed)
integer literals — every concrete input below uses only integers.
-/

/-- A JSON/JavaScript value (`undefined` is represented by `Option.none`
at property-access boundaries, never as a `JsonVal`). -/
inductive JsonVal : Type where
  | null : JsonVal
  | bool (b : Bool) : JsonVal
  | num (n : Int) : JsonVal
  | str (s : String) : JsonVal
  | arr (xs : List JsonVal) : JsonVal
  | obj (fields : List (String × JsonVal)) : JsonVal
deriving Repr

/-- JS property lookup on an object's field list: later assignments win
(`JSON.parse` of duplicate keys keeps the last one). -/
def getField : List (String × JsonVal) → String → Option JsonVal
  | [], _ => none
  | (k, v) :: rest, key =>
    match getField rest key with
    | some v' => some v'
    | none => if k = key then some v else none

/-- JS truthiness of a value (`undefined` is handled by `jsOrField`). -/
def truthy : JsonVal → Bool
  | .null => false
  | .bool b => b
  | .num n => n != 0
  | .str s => s != ""
  | .arr _ => true
  | .obj _ => true

/-- `x || fallback` where `x` is a possibly-`undefined` property. -/
def jsOrField (v : Option JsonVal) (fallback : JsonVal) : JsonVal :=
  match v with
  | some x => if truthy x then x else fallback
  | none => fallback

/-- JS property access on an arbitrary value: `undefined` on every
non-object (primitives have no such own properties; `null` never reaches
the accesses we model). -/
def jget : JsonVal → String → Option JsonVal
  | .obj fs, k => getField fs k
  | _, _ => none

/-- The whitespace characters trimmed by JS `String.prototype.trim`
(ASCII part; the code never meets exotic Unicode spaces). -/
def isJsWs (c : Char) : Bool :=
  c = ' ' || c = '\t' || c = '\n' || c = '\r' || c = '\x0b' || c = '\x0c'

/-- JS `s.trim()` on the character list. -/
def trimChars (cs : List Char) : List Char :=
  ((cs.dropWhile isJsWs).reverse.dropWhile isJsWs).reverse

/-- JS `s.trim()`. -/
def jsTrim (s : String) : String :=
  String.mk (trimChars s.data)

/-- JS `s.startsWith(p)`. -/
def jsStartsWith (s p : String) : Bool :=
  p.data.isPrefixOf s.data

/-- First index at which `pat` occurs as a sublist of the haystack. -/
def findSub (pat : List Char) : List Char → Option Nat
  | [] => if pat = [] then some 0 else none
  | c :: rest =>
    if pat.isPrefixOf (c :: rest) then some 0
    else (findSub pat rest).map (· + 1)

/-- JS `s.replace(pat, repl)` with a *string* pattern: only the first
occurrence is replaced (unlike Lean's `String.replace`). -/
def replaceFirst (s pat repl : String) : String :=
  match findSub pat.data s.data with
  | none => s
  | some i => String.mk (s.data.take i ++ repl.data ++ s.data.drop (i + pat.length))

/-- String coercion of a value, as performed by JS template literals
(`Array.prototype.toString` joins with commas; objects print
"[object Object]"). -/
def jsToString : JsonVal → String
  | .str s => s
  | .num n => toString n
  | .bool true => "true"
  | .bool false => "false"
  | .null => "null"
  | .arr xs => String.intercalate "," (xs.map fun v =>
      match v with
      | .str s => s
      | .num n => toString n
      | .bool true => "true"
      | .bool false => "false"
      | _ => "")
  | .obj _ => "[object Object]"

/-! ### JSON.parse

A fuel-indexed recursive-descent parser for JSON, used to model the JS
built-in `JSON.parse` (throwing is modelled by `Option.none`).  Numbers are
restricted to integer literals as explained above; `\uXXXX` escapes are
supported. -/

/-- Skip JSON insignificant whitespace. -/
def skipWs : List Char → List Char
  | c :: rest =>
    if c = ' ' || c = '\t' || c = '\n' || c = '\r' then skipWs rest else c :: rest
  | [] => []

/-- Value of a hexadecimal digit. -/
def hexVal (c : Char) : Option Nat :=
  if '0' ≤ c ∧ c ≤ '9' then some (c.toNat - '0'.toNat)
  else if 'a' ≤ c ∧ c ≤ 'f' then some (c.toNat - 'a'.toNat + 10)
  else if 'A' ≤ c ∧ c ≤ 'F' then some (c.toNat - 'A'.toNat + 10)
  else none

/-- Body of a JSON string literal, after the opening quote; returns the
decoded string and the remaining input. -/
def parseStringBody : List Char → Option (String × List Char)
  | '"' :: rest => some ("", rest)
  | '\\' :: 'u' :: h1 :: h2 :: h3 :: h4 :: rest =>
    match hexVal h1, hexVal h2, hexVal h3, hexVal h4 with
    | some a, some b, some c, some d =>
      (parseStringBody rest).map fun (p : String × List Char) =>
        (String.mk (Char.ofNat (((a * 16 + b) * 16 + c) * 16 + d) :: p.1.data), p.2)
    | _, _, _, _ => none
  | '\\' :: e :: rest =>
    (match e with
     | '"' => some '"'
     | '\\' => some '\\'
     | '/' => some '/'
     | 'n' => some '\n'
     | 't' => some '\t'
     | 'r' => some '\r'
     | 'b' => some '\x08'
     | 'f' => some '\x0c'
     | _ => none).bind fun d =>
      (parseStringBody rest).map fun (p : String × List Char) => (String.mk (d :: p.1.data), p.2)
  | c :: rest =>
    if c.toNat < 32 then none
    else (parseStringBody rest).map fun (p : String × List Char) => (String.mk (c :: p.1.data), p.2)
  | [] => none

/-- Consume an expected literal tail (e.g. "rue" after 't'). -/
def stripLit : List Char → List Char → Option (List Char)
  | [], cs => some cs
  | e :: es, c :: cs => if c = e then stripLit es cs else none
  | _ :: _, [] => none

/-- A (signed) integer JSON numeral. -/
def parseNum (cs : List Char) : Option (JsonVal × List Char) :=
  let core : List Char → Option (Nat × List Char) := fun ds =>
    let digits := ds.takeWhile Char.isDigit
    if digits = [] then none
    else some (digits.foldl (fun a c => a * 10 + (c.toNat - '0'.toNat)) 0,
               ds.drop digits.length)
  match cs with
  | '-' :: rest => (core rest).map fun p => (JsonVal.num (-(p.1 : Int)), p.2)
  | _ => (core cs).map fun p => (JsonVal.num (p.1 : Int), p.2)

/-- Parsing mode: a plain value, or the continuation inside an object /
array whose accumulated members are carried along. -/
inductive JMode : Type where
  | val : JMode
  | objMembers (acc : List (String × JsonVal)) : JMode
  | arrElems (acc : List JsonVal) : JMode

/-- The recursive-descent core; structural on the fuel so that concrete
inputs evaluate by `rfl`/`decide`. -/
def parseJ : Nat → JMode → List Char → Option (JsonVal × List Char)
  | 0, _, _ => none
  | Nat.succ fuel, JMode.val, cs =>
    match skipWs cs with
    | [] => none
    | c :: rest =>
      if c = '\x7b' then
        match skipWs rest with
        | c2 :: r2 =>
          if c2 = '\x7d' then some (JsonVal.obj [], r2)
          else parseJ fuel (JMode.objMembers []) rest
        | [] => none
      else if c = '[' then
        match skipWs rest with
        | c2 :: r2 =>
          if c2 = ']' then some (JsonVal.arr [], r2)
          else parseJ fuel (JMode.arrElems []) rest
        | [] => none
      else if c = '"' then
        (parseStringBody rest).map fun p => (JsonVal.str p.1, p.2)
      else if c = 't' then
        (stripLit ['r', 'u', 'e'] rest).map fun r => (JsonVal.bool true, r)
      else if c = 'f' then
        (stripLit ['a', 'l', 's', 'e'] rest).map fun r => (JsonVal.bool false, r)
      else if c = 'n' then
        (stripLit ['u', 'l', 'l'] rest).map fun r => (JsonVal.null, r)
      else parseNum (c :: rest)
  | Nat.succ fuel, JMode.objMembers acc, cs =>
    match skipWs cs with
    | '"' :: rest =>
      match parseStringBody rest with
      | some (key, r1) =>
        match skipWs r1 with
        | ':' :: r2 =>
          match parseJ fuel JMode.val r2 with
          | some (v, r3) =>
            match skipWs r3 with
            | ',' :: r4 => parseJ fuel (JMode.objMembers (acc ++ [(key, v)])) r4
            | cc :: r4 =>
              if cc = '\x7d' then some (JsonVal.obj (acc ++ [(key, v)]), r4)
              else none
            | [] => none
          | none => none
        | _ => none
      | none => none
    | _ => none
  | Nat.succ fuel, JMode.arrElems acc, cs =>
    match parseJ fuel JMode.val cs with
    | some (v, r1) =>
      match skipWs r1 with
      | ',' :: r2 => parseJ fuel (JMode.arrElems (acc ++ [v])) r2
      | ']' :: r2 => some (JsonVal.arr (acc ++ [v]), r2)
      | _ => none
    | none => none

/-- Model of the JS built-in `JSON.parse`: `none` models a thrown
`SyntaxError`.  The fuel `s.length + 1` is sufficient because every step
of `parseJ` consumes at least one character. -/
def jsonParse (s : String) : Option JsonVal :=
  match parseJ (s.length + 1) JMode.val s.data with
  | some (v, rest) => if skipWs rest = [] then some v else none
  | none => none

/-! ### PayloadParser — `parseContentSafely`

Shallow embedding of `parseContentSafely` (WikiViewer.tsx lines 64-126).
The function returns a `{intro, sections, mermaid}` record; since the JS
code can place values of any runtime type in those slots (the parsed inner
object's fields are passed through unvalidated), the fields are `JsonVal`.
The outer `try/catch` makes the JS function total (`JSON.parse` failures
are modelled by the `none` branches); the only recursion, on a doubly
serialized whole payload, is bounded by a fuel parameter — in JS it
terminates because each successful parse of a string literal yields a
strictly shorter string, so a fuel of the payload's size is never
exhausted on real inputs. -/

/-- The `{intro, sections, mermaid}` record built by `parseContentSafely`. -/
structure PageContent where
  intro : JsonVal
  sections : JsonVal
  mermaid : JsonVal
deriving Repr

/-- The ultimate fallback `{intro: "", sections: [], mermaid: ""}`. -/
def defaultContent : PageContent :=
  { intro := JsonVal.str "", sections := JsonVal.arr [], mermaid := JsonVal.str "" }

/-- `parseContentSafely` (WikiViewer.tsx lines 64-126).  The guard of the
object branch is `typeof rawContent === 'object' && typeof rawContent.intro
=== 'string' && Array.isArray(rawContent.sections)`. -/
def parseContentSafely (fuel : Nat) (rawContent : JsonVal) : PageContent :=
  match rawContent with
  | JsonVal.obj fields =>
    match getField fields "intro", getField fields "sections" with
    | some (JsonVal.str introStr), some (JsonVal.arr secs) =>
      if jsStartsWith (jsTrim introStr) "\x7b" then
        match jsonParse introStr with
        | some parsedIntro =>
          { intro := jsOrField (jget parsedIntro "intro") (JsonVal.str introStr)
            sections := jsOrField (jget parsedIntro "sections")
              (jsOrField (some (JsonVal.arr secs)) (JsonVal.arr []))
            mermaid := jsOrField (jget parsedIntro "mermaid")
              (jsOrField (getField fields "mermaid") (JsonVal.str "")) }
        | none =>
          { intro := JsonVal.str introStr
            sections := jsOrField (some (JsonVal.arr secs)) (JsonVal.arr [])
            mermaid := jsOrField (getField fields "mermaid") (JsonVal.str "") }
      else
        { intro := JsonVal.str introStr
          sections := jsOrField (some (JsonVal.arr secs)) (JsonVal.arr [])
          mermaid := jsOrField (getField fields "mermaid") (JsonVal.str "") }
    | _, _ => defaultContent
  | JsonVal.str s =>
    match jsonParse s with
    | some v =>
      match fuel with
      | 0 => defaultContent
      | Nat.succ f => parseContentSafely f v
    | none => defaultContent
  | _ => defaultContent

/-! ### Task API — `api.ts`

Types and `getTaskStatus` from `src/frontend/src/lib/api.ts`. -/

/-- The task status enum. -/
inductive TaskStatus : Type where
  | pending
  | processing
  | completed
  | failed
deriving Repr, DecidableEq

/-- `GenResponse` of api.ts. -/
structure GenResponse where
  r2_structure_url : Option String
  r2_content_urls : Option (List String)
  json_wiki : Option String
  json_content : Option String
deriving Repr, DecidableEq

/-- `TaskStatusResponse` of api.ts. -/
structure TaskStatusResponse where
  task_id : String
  status : TaskStatus
  progress : Int
  current_step : String
  created_at : String
  updated_at : String
  result : Option GenResponse
  error : Option String
deriving Repr, DecidableEq

/-- The shape of an axios rejection as far as `getTaskStatus` inspects it:
whether `axios.isAxiosError(error)` holds and `error.response?.status`. -/
structure AxiosErr where
  isAxiosError : Bool
  responseStatus : Option Nat
deriving Repr, DecidableEq

/-- The terminal record synthesized by `getTaskStatus` on a 404; `now` is
the value of `new Date().toISOString()`. -/
def taskNotFoundRecord (task_id : String) (now : String) : TaskStatusResponse :=
  { task_id := task_id
    status := TaskStatus.failed
    progress := 0
    current_step := "Task not found"
    created_at := now
    updated_at := now
    result := none
    error := some "Task not found or expired" }

/-- `api.getTaskStatus` (api.ts lines 85-104): the remote `GET /task/:id`
either resolves with a record or rejects with an error; a 404 axios
rejection is converted into the synthesized terminal record, every other
rejection is re-thrown (`Except.error`). -/
def getTaskStatus (task_id : String) (now : String)
    (remote : Except AxiosErr TaskStatusResponse) : Except AxiosErr TaskStatusResponse :=
  match remote with
  | Except.ok r => Except.ok r
  | Except.error e =>
    if e.isAxiosError && e.responseStatus == some 404 then
      Except.ok (taskNotFoundRecord task_id now)
    else Except.error e

/-! ### TaskLifecycleClient — `pollStatus`

`pollStatus` (page.tsx lines 95-122) polls `getTaskStatus`, publishes the
record, and rearms a timer: 2000 ms after a resolved non-terminal record,
5000 ms after a rejected poll; after a terminal record it clears the timer
and never rearms.  We model a run of the loop against a given sequence of
poll outcomes as the trace of polls it performs: each trace entry records
the delay its timer was armed with, the task id polled, and the outcome. -/

/-- Outcome of one `api.getTaskStatus` call as seen by `pollStatus`:
either a resolved record or a rejection (transport error). -/
inductive PollResult : Type where
  | ok (r : TaskStatusResponse)
  | err
deriving Repr, DecidableEq

/-- `res.status === 'completed' || res.status === 'failed'`. -/
def isTerminalStatus : TaskStatus → Bool
  | TaskStatus.completed => true
  | TaskStatus.failed => true
  | _ => false

/-- Whether this poll outcome stops the loop (only a resolved terminal
record does; a rejection never stops it). -/
def stopsPolling : PollResult → Bool
  | PollResult.ok r => isTerminalStatus r.status
  | PollResult.err => false

/-- The delay the loop arms after a non-stopping outcome:
`setTimeout(..., 2000)` after a resolved record, `setTimeout(..., 5000)`
after a rejection. -/
def nextPollDelay : PollResult → Nat
  | PollResult.ok _ => 2000
  | PollResult.err => 5000

/-- One performed poll: the delay its timer was armed with (0 for the
immediate first call), the id it polled, and its outcome. -/
structure PollEntry where
  delay : Nat
  taskId : String
  result : PollResult
deriving Repr, DecidableEq

/-- The polls performed by `pollStatus` against the outcome sequence `rs`,
starting with a timer of `d` (the loop only ever calls itself with the
same `id`). -/
def pollTrace (id : String) : Nat → List PollResult → List PollEntry
  | _, [] => []
  | d, r :: rest =>
    if stopsPolling r then [⟨d, id, r⟩]
    else ⟨d, id, r⟩ :: pollTrace id (nextPollDelay r) rest

/-- A full `pollStatus(id)` run: the first poll is issued immediately. -/
def watchTrace (id : String) (rs : List PollResult) : List PollEntry :=
  pollTrace id 0 rs

/-! ### WikiViewer structure tree and content-URL resolution

`WikiStructureItem` (WikiViewer.tsx lines 33-38) is a rose tree of page
descriptors.  The tree is encoded as a pair of mutual inductives (an item
and a forest of items) so that all tree recursion is structural and
computes definitionally.  An absent `children` field is modelled as the
empty forest: the source only ever tests `item.children` for truthiness
before iterating, and in JS an empty array is truthy and iterates to
nothing, so `undefined` and `[]` are indistinguishable in
`flattenStructure`, `findItemById` and the sidebar. -/

mutual
/-- A (normalized) structure node as typed in WikiViewer.tsx. -/
inductive WikiItem : Type where
  | mk (id : String) (title : String) (filename : Option String)
      (children : WikiForest)
deriving Repr
/-- A list of structure nodes (the `WikiStructureItem[]` of the source). -/
inductive WikiForest : Type where
  | nil : WikiForest
  | cons (item : WikiItem) (rest : WikiForest) : WikiForest
deriving Repr
end

/-- Build a forest from a list literal. -/
def forestOf : List WikiItem → WikiForest
  | [] => WikiForest.nil
  | it :: rest => WikiForest.cons it (forestOf rest)

/-- The node's `id`. -/
def WikiItem.id : WikiItem → String
  | .mk i _ _ _ => i

/-- The node's `title`. -/
def WikiItem.title : WikiItem → String
  | .mk _ t _ _ => t

/-- The node's `filename`. -/
def WikiItem.filename : WikiItem → Option String
  | .mk _ _ f _ => f

/-- The node's `children`. -/
def WikiItem.children : WikiItem → WikiForest
  | .mk _ _ _ cs => cs

/-- `structure.length` is falsy exactly on the empty array. -/
def WikiForest.isEmpty : WikiForest → Bool
  | WikiForest.nil => true
  | WikiForest.cons _ _ => false

mutual
/-- `flattenStructure` (WikiViewer.tsx lines 199-211): depth-first
pre-order flattening. -/
def flattenStructure : WikiForest → List WikiItem
  | WikiForest.nil => []
  | WikiForest.cons item rest => flattenItem item ++ flattenStructure rest
/-- The `traverse` helper on a single item: the item, then its subtree. -/
def flattenItem : WikiItem → List WikiItem
  | WikiItem.mk i t f cs => WikiItem.mk i t f cs :: flattenStructure cs
end

mutual
/-- `findItemById` (WikiViewer.tsx lines 256-265): first match in the same
depth-first order. -/
def findItemById : WikiForest → String → Option WikiItem
  | WikiForest.nil, _ => none
  | WikiForest.cons item rest, i =>
    match findInItem item i with
    | some found => some found
    | none => findItemById rest i
/-- The per-item step of `findItemById`: the item itself, then its
children. -/
def findInItem : WikiItem → String → Option WikiItem
  | WikiItem.mk id0 t f cs, i =>
    if id0 = i then some (WikiItem.mk id0 t f cs)
    else findItemById cs i
end

/-- JS `Array.prototype.findIndex`, with `-1` modelled as `none`. -/
def jsFindIndex (p : α → Bool) : List α → Option Nat
  | [] => none
  | x :: xs => if p x then some 0 else (jsFindIndex p xs).map (· + 1)

/-- The positional lookup of `fetchPage` (WikiViewer.tsx lines 199-221):
flatten the tree depth-first, find the selected id's index, and take the
URL at that same index; `index === -1 || index >= contentUrls.length`
throws `Content URL not found for ...`. -/
def positionalLookup (structureItems : WikiForest) (selectedId : String)
    (contentUrls : List String) : Except String String :=
  match jsFindIndex (fun it => it.id == selectedId) (flattenStructure structureItems) with
  | none => Except.error ("Content URL not found for " ++ selectedId)
  | some index =>
    if h : index < contentUrls.length then Except.ok (contentUrls.get ⟨index, h⟩)
    else Except.error ("Content URL not found for " ++ selectedId)

/-- The full URL resolution of `fetchPage` (WikiViewer.tsx lines 193-221):
the `findItemById` guard (`throw new Error('Page not found in structure')`)
followed by the positional lookup. -/
def fetchPageResolve (structureItems : WikiForest) (selectedId : String)
    (contentUrls : List String) : Except String String :=
  match findItemById structureItems selectedId with
  | none => Except.error "Page not found in structure"
  | some _ => positionalLookup structureItems selectedId contentUrls

/-! ### WikiViewer component state

The state relevant to error propagation (WikiViewer.tsx lines 52-59 and
the render at lines 321-337). -/

/-- `WikiPageContent` as fetched (`res.data`), with the raw `content`. -/
structure RawPage where
  section_id : String
  title : String
  breadcrumb : String
  files : List String
  content : JsonVal
deriving Repr

/-- The page record after `content` went through `parseContentSafely`. -/
structure WikiPage where
  section_id : String
  title : String
  breadcrumb : String
  files : List String
  content : PageContent
deriving Repr

/-- Sufficient fuel for `parseContentSafely`: its only recursion starts
from a string payload, and each successful `JSON.parse` of a string
literal yields a strictly shorter string. -/
def contentFuel : JsonVal → Nat
  | JsonVal.str s => s.length + 1
  | _ => 1

/-- `parseContentSafely` as called by the component. -/
def runParseContentSafely (v : JsonVal) : PageContent :=
  parseContentSafely (contentFuel v) v

/-- The WikiViewer state variables that decide what is rendered. -/
structure WikiState where
  contentUrls : List String
  structureItems : WikiForest
  selectedId : Option String
  pageContent : Option WikiPage
  loading : Bool
  loadingPage : Bool
  error : Option String
deriving Repr

/-- Effect of one `fetchPage` run (WikiViewer.tsx lines 186-254) on the
state.  `remote` maps a URL to the fetched `res.data` or a transport
failure.  Every thrown error — `Page not found in structure`, `Content URL
not found`, or a failed fetch — lands in the catch block, which sets the
*component-global* `error` state to `'Failed to load page content.'`. -/
def fetchPageEffect (st : WikiState) (remote : String → Except String RawPage) :
    WikiState :=
  match st.selectedId with
  | none => st
  | some sid =>
    if st.structureItems.isEmpty || st.contentUrls.isEmpty then st
    else
      match fetchPageResolve st.structureItems sid st.contentUrls with
      | Except.error _ =>
        { st with error := some "Failed to load page content.", loadingPage := false }
      | Except.ok url =>
        match remote url with
        | Except.error _ =>
          { st with error := some "Failed to load page content.", loadingPage := false }
        | Except.ok raw =>
          { st with
              pageContent := some
                { section_id := raw.section_id
                  title := raw.title
                  breadcrumb := raw.breadcrumb
                  files := raw.files
                  content := runParseContentSafely raw.content }
              loadingPage := false }

/-- What the component renders at top level (WikiViewer.tsx lines
321-337): a spinner while the structure loads, a *whole-viewer* error
screen whenever `error` is set, otherwise the sidebar-plus-page view. -/
inductive WikiRender : Type where
  | spinner
  | errorScreen (msg : String)
  | viewer (sidebar : WikiForest) (page : Option WikiPage)
deriving Repr

/-- The top-level render decision. -/
def renderWiki (st : WikiState) : WikiRender :=
  if st.loading && st.structureItems.isEmpty then WikiRender.spinner
  else
    match st.error with
    | some e => WikiRender.errorScreen e
    | none => WikiRender.viewer st.structureItems st.pageContent

/-! ### StructureNormalizer — `fetchStructure`'s per-node normalization

WikiViewer.tsx lines 154-163: each top-level element of the structure
array is mapped to `{id, title, filename, children}`.  `id` comes from
`item.id || item.section_id || item.filename?.replace('.json','') ||
'unknown'` (JS `||` falls through on falsy values, and `?.replace` on a
truthy non-string throws a `TypeError`, aborting the whole map inside the
surrounding try/catch — modelled as `Except.error`).  `filename` is
`item.filename || id + '.json'` (string coercion of the derived id) and
`children` is `item.children`, passed through verbatim. -/

/-- Like `jsOrField` on a property that might not exist, but keeping
`Option`: the first *truthy* value survives. -/
def truthyOpt (v : Option JsonVal) : Option JsonVal :=
  match v with
  | some x => if truthy x then some x else none
  | none => none

/-- A normalized node as actually built by the source (the field values
are whatever JS produced, hence `JsonVal`; `children` is the raw property,
`none` when absent). -/
structure NormItem where
  id : JsonVal
  title : JsonVal
  filename : JsonVal
  children : Option JsonVal
deriving Repr

/-- The per-item normalization of `fetchStructure` (WikiViewer.tsx lines
154-163).  Reading a property of `null` throws at once; on every other
value the property reads are the non-throwing `jget`.  The only other
throw is `?.replace` applied to a truthy non-string filename, reached only
when both id candidates are falsy. -/
def normalizeItem : JsonVal → Except Unit NormItem
  | JsonVal.null => Except.error ()
  | item =>
    let idRes : Except Unit JsonVal :=
      match truthyOpt (jget item "id") with
      | some v => Except.ok v
      | none =>
        match truthyOpt (jget item "section_id") with
        | some v => Except.ok v
        | none =>
          match jget item "filename" with
          | none => Except.ok (JsonVal.str "unknown")
          | some JsonVal.null => Except.ok (JsonVal.str "unknown")
          | some (JsonVal.str s) =>
            Except.ok
              (if replaceFirst s ".json" "" = "" then JsonVal.str "unknown"
               else JsonVal.str (replaceFirst s ".json" ""))
          | some _ => Except.error ()
    match idRes with
    | Except.error e => Except.error e
    | Except.ok idVal =>
      Except.ok
        { id := idVal
          title := jsOrField (jget item "title")
            (jsOrField (jget item "name") (JsonVal.str "Untitled"))
          filename :=
            match truthyOpt (jget item "filename") with
            | some v => v
            | none => JsonVal.str (jsToString idVal ++ ".json")
          children := jget item "children" }

/-- `data.map(item => ...)` over the structure array (a throw on any
element aborts the whole map). -/
def normalizeStructure : List JsonVal → Except Unit (List NormItem)
  | [] => Except.ok []
  | item :: rest =>
    match normalizeItem item with
    | Except.error e => Except.error e
    | Except.ok ni =>
      match normalizeStructure rest with
      | Except.error e => Except.error e
      | Except.ok nis => Except.ok (ni :: nis)

/-! ### ContentReconciler — the filename-matching variant

`fetchPage` of `src/unnamed/part_001` (lines 161-219) matches the selected
node to a content URL by filename, trying six equality strategies on each
URL in list order and taking the first hit; it has *no* positional
fallback.  Helper `extractFilename` (lines 76-89) takes the last segment
of `new URL(url).pathname`, falling back to splitting the raw string when
URL parsing throws. -/

/-- Split a character list on a separator character (JS `split`). -/
def splitOnChar (sep : Char) : List Char → List (List Char)
  | [] => [[]]
  | c :: rest =>
    if c = sep then [] :: splitOnChar sep rest
    else
      match splitOnChar sep rest with
      | h :: t => (c :: h) :: t
      | [] => [[c]]

/-- The `pathname` of `new URL(url)` for an absolute URL; `none` models a
thrown `TypeError` (no `scheme://` part).  Query/fragment are cut off and
a URL with no path has pathname `/`. -/
def urlPathname (url : String) : Option String :=
  match findSub "://".data url.data with
  | none => none
  | some i =>
    if i = 0 then none
    else
      let afterScheme := url.data.drop (i + 3)
      let pathStart := afterScheme.dropWhile (fun c => !(c = '/' || c = '?' || c = '#'))
      let path := pathStart.takeWhile (fun c => !(c = '?' || c = '#'))
      if path = [] then some "/" else some (String.mk path)

/-- `extractFilename` (part_001 lines 76-89): last path segment, `none`
for an empty url or an empty last segment (`|| null`). -/
def extractFilename (url : String) : Option String :=
  if url = "" then none
  else
    let parts :=
      match urlPathname url with
      | some pathname => (splitOnChar '/' pathname.data).map String.mk
      | none => (splitOnChar '/' url.data).map String.mk
    match parts.getLast? with
    | some "" => none
    | some s => some s
    | none => none

/-- The structure-item fields used by the part_001 matcher. -/
structure P1Item where
  id : String
  filename : Option String
deriving Repr, DecidableEq

/-- `item.filename || item.id + '.json'` (an empty declared filename is
falsy). -/
def expectedFilename (item : P1Item) : String :=
  match item.filename with
  | some f => if f = "" then item.id ++ ".json" else f
  | none => item.id ++ ".json"

/-- The six matching strategies of part_001 lines 186-193, applied to one
URL (a URL whose filename cannot be extracted is skipped, line 181). -/
def matchesItem (item : P1Item) (url : String) : Bool :=
  match extractFilename url with
  | none => false
  | some urlFilename =>
    let expected := expectedFilename item
    let expectedNoExt := replaceFirst expected ".json" ""
    let itemIdNoExt := replaceFirst item.id ".json" ""
    let urlNoExt := replaceFirst urlFilename ".json" ""
    urlFilename == expected ||
    urlFilename == item.id ++ ".json" ||
    urlNoExt == expectedNoExt ||
    urlNoExt == itemIdNoExt ||
    urlNoExt == item.id ||
    (match item.filename with
     | some f => urlNoExt == replaceFirst f ".json" ""
     | none => false)

/-- The `for (const url of contentUrls)` loop with `break` (part_001 lines
179-197): first matching URL in list order. -/
def findMatchedUrl (item : P1Item) : List String → Option String
  | [] => none
  | url :: rest =>
    if matchesItem item url then some url else findMatchedUrl item rest

/-! ### DiagramRenderer — Mermaid.tsx

Two pieces are modelled.

First, the module-level loader (Mermaid.tsx lines 10-56) together with the
render effect (lines 82-112), as a state machine over component events.
`mermaidInitialized` / `mermaidModule` are module-level singletons.  The
mount effect starts the (async) dynamic import when needed; `loadDone`
models that import resolving, after which `mermaid.initialize` runs only
under the `if (!mermaidInitialized)` guard.  The render effect has
dependency list `[chart]`, so it runs at mount and on a chart change —
and is *not* re-run when initialization completes; its body returns
without scheduling a render whenever `!chart || !mermaidInitialized ||
!mermaidModule`.  Per component we track its chart and whether a render
was scheduled for it. -/

/-- Per-component render bookkeeping. -/
structure MermaidComp where
  chart : String
  rendered : Bool
deriving Repr, DecidableEq

/-- Module-level (process-wide) mermaid state plus the mounted
components. -/
structure MermaidProc where
  moduleLoaded : Bool
  initialized : Bool
  initCount : Nat
  comps : List MermaidComp
deriving Repr, DecidableEq

/-- Events driving the model: a component mount, the dynamic import
resolving (`loadDone`) or rejecting (`loadFail`), and a chart-prop change
re-running the render effect of component `idx`. -/
inductive MEvent : Type where
  | mount (chart : String)
  | loadDone
  | loadFail
  | chartChange (idx : Nat) (chart : String)
deriving Repr, DecidableEq

/-- Whether the render effect schedules a render: the guard
`if (!chart || !mermaidInitialized || !mermaidModule) return` inverted. -/
def renderEffectFires (st : MermaidProc) (chart : String) : Bool :=
  !(chart == "") && st.initialized && st.moduleLoaded

/-- One step of the mermaid state machine.  On `loadDone` the module
handle is set and `initialize` runs only when the flag is still false
(Mermaid.tsx lines 36-45); components are untouched because the render
effect does not depend on the module state. -/
def mermaidStep (st : MermaidProc) : MEvent → MermaidProc
  | MEvent.mount c =>
    { st with comps := st.comps ++ [⟨c, renderEffectFires st c⟩] }
  | MEvent.loadDone =>
    if st.initialized then { st with moduleLoaded := true }
    else
      { st with moduleLoaded := true, initialized := true,
                initCount := st.initCount + 1 }
  | MEvent.loadFail => st
  | MEvent.chartChange i c =>
    { st with comps := st.comps.set i ⟨c, renderEffectFires st c⟩ }

/-- A fresh process: nothing loaded, nothing initialized. -/
def mermaidStart : MermaidProc :=
  { moduleLoaded := false, initialized := false, initCount := 0, comps := [] }

/-- Run a trace of events from process start. -/
def mermaidRun (evs : List MEvent) : MermaidProc :=
  evs.foldl mermaidStep mermaidStart

/-! Second, `prepareChart` (Mermaid.tsx lines 59-79): trim, replace every
literal backslash-n pair by a newline, then rewrite every occurrence of
the regex `(\w+)(\[|\(|\{)([^\]\)\}]+)(\]|\)|\})`: a bracketed node label
is wrapped in double quotes when it contains one of `/ ( ) @ # & < >` and
does not already pass the quoted test `/^["'].*["']$/` on its trimmed
text (note `.` does not match a newline).  The regex scan is modelled
character-exactly: at each position the engine takes a maximal nonempty
`\w` run, an opening bracket, a maximal nonempty run of
non-closing-bracket characters, and any closing bracket; on failure it
advances one character. -/

/-- JS `\w`. -/
def isWordChar (c : Char) : Bool :=
  c.isAlpha || c.isDigit || c = '_'

/-- An opening bracket of the label pattern. -/
def isOpenerChar (c : Char) : Bool :=
  c = '[' || c = '(' || c = '\x7b'

/-- A closing bracket of the label pattern. -/
def isCloserChar (c : Char) : Bool :=
  c = ']' || c = ')' || c = '\x7d'

/-- A quote character accepted by the already-quoted test. -/
def isQuoteChar (c : Char) : Bool :=
  c = '"' || c = '\''

/-- The already-quoted test `/^["'].*["']$/.test(label.trim())`: at least
two characters, quote at both ends, and no newline in between (`.` does
not cross line terminators). -/
def labelQuoted (label : List Char) : Bool :=
  match trimChars label with
  | [] => false
  | c1 :: rest =>
    match rest.getLast? with
    | none => false
    | some c2 =>
      isQuoteChar c1 && isQuoteChar c2 &&
        rest.dropLast.all (fun c => !(c = '\n' || c = '\r'))

/-- The special-character test `/[\/\(\)@#&<>]/.test(label)`. -/
def hasSpecialChar (label : List Char) : Bool :=
  label.any fun c =>
    c = '/' || c = '(' || c = ')' || c = '@' || c = '#' || c = '&' ||
    c = '<' || c = '>'

/-- One attempted regex match at the current position: maximal nonempty
word run, an opener, maximal nonempty non-closer run, a closer; returns
the four captures and the remaining input. -/
def tryMatch (cs : List Char) :
    Option (List Char × Char × List Char × Char × List Char) :=
  let w := cs.takeWhile isWordChar
  if w = [] then none
  else
    match cs.drop w.length with
    | o :: r1 =>
      if isOpenerChar o then
        let l := r1.takeWhile (fun c => !(isCloserChar c))
        if l = [] then none
        else
          match r1.drop l.length with
          | c :: r2 => if isCloserChar c then some (w, o, l, c, r2) else none
          | [] => none
      else none
    | [] => none

/-- The replacement callback (Mermaid.tsx lines 66-76). -/
def replBracketLabel (w : List Char) (o : Char) (l : List Char) (c : Char) :
    List Char :=
  if labelQuoted l then w ++ o :: l ++ [c]
  else if hasSpecialChar l then w ++ o :: '"' :: (l ++ ['"', c])
  else w ++ o :: l ++ [c]

/-- The global regex replace, scanning left to right; the fuel (one unit
per consumed character) keeps the recursion structural, and the initial
fuel `cs.length` is never exhausted since every step consumes at least
one character. -/
def scanReplace : Nat → List Char → List Char
  | _, [] => []
  | 0, cs => cs
  | Nat.succ fuel, c :: cs =>
    match tryMatch (c :: cs) with
    | some (w, o, l, cl, rest) => replBracketLabel w o l cl ++ scanReplace fuel rest
    | none => c :: scanReplace fuel cs

/-- `\\n` (two characters) to a real newline, globally (Mermaid.tsx line
62). -/
def unescapeNewlines : List Char → List Char
  | [] => []
  | [c] => [c]
  | c1 :: c2 :: rest =>
    if c1 = '\\' ∧ c2 = 'n' then '\n' :: unescapeNewlines rest
    else c1 :: unescapeNewlines (c2 :: rest)

/-- `prepareChart` (Mermaid.tsx lines 59-79). -/
def prepareChart (code : String) : String :=
  let trimmed := trimChars code.data
  let unescaped := unescapeNewlines trimmed
  String.mk (scanReplace unescaped.length unescaped)


/-! ## Theorems -/

/-! ### C2 — the polling lifecycle -/

theorem pollTrace_get_zero (id : String) (d : Nat) (r : PollResult) (rest : List PollResult) :
    (pollTrace id d (r :: rest))[0]? = some ⟨d, id, r⟩ := by
  cases h : stopsPolling r <;> simp [pollTrace, h]

theorem pollTrace_entry (id : String) :
    ∀ (rs : List PollResult) (d i : Nat) (e : PollEntry),
      (pollTrace id d rs)[i]? = some e → e.taskId = id ∧ rs[i]? = some e.result := by
  intro rs
  induction rs with
  | nil => intro d i e h; simp [pollTrace] at h
  | cons r rest ih =>
    intro d i e h
    by_cases hs : stopsPolling r
    · cases i with
      | zero =>
        simp [pollTrace, hs] at h
        subst h
        exact ⟨rfl, by simp⟩
      | succ n =>
        simp [pollTrace, hs] at h
    · cases i with
      | zero =>
        simp [pollTrace, hs] at h
        subst h
        exact ⟨rfl, by simp⟩
      | succ n =>
        simp [pollTrace, hs] at h
        simpa using ih (nextPollDelay r) n e h

theorem pollTrace_consecutive (id : String) :
    ∀ (rs : List PollResult) (d i : Nat) (e e' : PollEntry),
      (pollTrace id d rs)[i]? = some e →
      (pollTrace id d rs)[i + 1]? = some e' →
      stopsPolling e.result = false ∧ e'.delay = nextPollDelay e.result := by
  intro rs
  induction rs with
  | nil => intro d i e e' h _; simp [pollTrace] at h
  | cons r rest ih =>
    intro d i e e' h h'
    by_cases hs : stopsPolling r
    · simp [pollTrace, hs] at h'
    · cases i with
      | zero =>
        simp [pollTrace, hs] at h h'
        subst h
        cases rest with
        | nil => simp [pollTrace] at h'
        | cons r' rest' =>
          have hz := pollTrace_get_zero id (nextPollDelay r) r' rest'
          rw [hz] at h'
          have he' : e' = ⟨nextPollDelay r, id, r'⟩ := (Option.some.inj h').symm
          subst he'
          exact ⟨by simpa using hs, rfl⟩
      | succ n =>
        simp [pollTrace, hs] at h h'
        exact ih (nextPollDelay r) n e e' h h'

theorem pollTrace_terminal_last (id : String) :
    ∀ (rs : List PollResult) (d i : Nat) (e : PollEntry),
      (pollTrace id d rs)[i]? = some e → stopsPolling e.result = true →
      (pollTrace id d rs).length = i + 1 := by
  intro rs
  induction rs with
  | nil => intro d i e h _; simp [pollTrace] at h
  | cons r rest ih =>
    intro d i e h ht
    by_cases hs : stopsPolling r
    · cases i with
      | zero => simp [pollTrace, hs]
      | succ n => simp [pollTrace, hs] at h
    · cases i with
      | zero =>
        simp [pollTrace, hs] at h
        subst h
        simp at ht
        exact absurd ht hs
      | succ n =>
        simp [pollTrace, hs] at h ⊢
        exact ih (nextPollDelay r) n e h ht

theorem pollTrace_stops_at_terminal (id : String) (t : PollResult) (post : List PollResult) :
    ∀ (pre : List PollResult) (d : Nat),
      (∀ x ∈ pre, stopsPolling x = false) → stopsPolling t = true →
      pollTrace id d (pre ++ t :: post) = pollTrace id d (pre ++ [t]) ∧
      (pollTrace id d (pre ++ t :: post)).length = pre.length + 1 ∧
      ∃ d', (pollTrace id d (pre ++ t :: post))[pre.length]? = some ⟨d', id, t⟩ := by
  intro pre
  induction pre with
  | nil =>
    intro d _ ht
    refine ⟨by simp [pollTrace, ht], by simp [pollTrace, ht], ⟨d, by simp [pollTrace, ht]⟩⟩
  | cons p pre' ih =>
    intro d hpre ht
    have hp : stopsPolling p = false := hpre p (by simp)
    have ih' := ih (nextPollDelay p) (fun x hx => hpre x (by simp [hx])) ht
    refine ⟨?_, ?_, ?_⟩
    · simpa [pollTrace, hp] using ih'.1
    · simpa [pollTrace, hp] using ih'.2.1
    · rcases ih'.2.2 with ⟨d', hd'⟩
      exact ⟨d', by simpa [pollTrace, hp] using hd'⟩

/-- C2: `pollStatus` polls immediately (delay 0 for the first trace
entry); whenever a poll is followed by another, the earlier one resolved
non-terminally or rejected, and the later one was armed with the fixed
delay — 2000 ms after a resolved (necessarily non-terminal) record, 5000
ms after a rejection — for the same task id; a poll whose outcome is a
resolved terminal (`completed`/`failed`) record is the last entry of the
trace; every entry polls the given task id with the corresponding outcome
of the response sequence; and once a terminal record is reached the trace
is independent of any further outcomes, ends right there, and carries the
terminal record as its final entry. -/
theorem pollStatus_watch_schedule (id : String) (rs pre post : List PollResult)
    (r t : PollResult) (rest : List PollResult) (i : Nat) (e e' : PollEntry) :
    ((watchTrace id (r :: rest))[0]? = some ⟨0, id, r⟩)
    ∧ ((watchTrace id rs)[i]? = some e → (watchTrace id rs)[i + 1]? = some e' →
        stopsPolling e.result = false ∧ e'.delay = nextPollDelay e.result)
    ∧ ((watchTrace id rs)[i]? = some e → stopsPolling e.result = true →
        (watchTrace id rs).length = i + 1)
    ∧ ((watchTrace id rs)[i]? = some e → e.taskId = id ∧ rs[i]? = some e.result)
    ∧ ((∀ x ∈ pre, stopsPolling x = false) → stopsPolling t = true →
        watchTrace id (pre ++ t :: post) = watchTrace id (pre ++ [t]) ∧
        (watchTrace id (pre ++ t :: post)).length = pre.length + 1 ∧
        ∃ d', (watchTrace id (pre ++ t :: post))[pre.length]? = some ⟨d', id, t⟩) := by
  refine ⟨pollTrace_get_zero id 0 r rest, ?_, ?_, ?_, ?_⟩
  · exact fun h h' => pollTrace_consecutive id rs 0 i e e' h h'
  · exact fun h ht => pollTrace_terminal_last id rs 0 i e h ht
  · exact fun h => pollTrace_entry id rs 0 i e h
  · exact fun hpre ht => pollTrace_stops_at_terminal id t post pre 0 hpre ht

/-- A sample non-terminal (processing) response. -/
def procResp : TaskStatusResponse :=
  { task_id := "t", status := TaskStatus.processing, progress := 40,
    current_step := "Generating", created_at := "c", updated_at := "u",
    result := none, error := none }

/-- A sample terminal (completed) response. -/
def doneResp : TaskStatusResponse :=
  { task_id := "t", status := TaskStatus.completed, progress := 100,
    current_step := "Done", created_at := "c", updated_at := "u",
    result := some { r2_structure_url := some "https://h/p/structure.json",
                     r2_content_urls := some ["https://h/p/intro.json"],
                     json_wiki := none, json_content := none },
    error := none }

theorem pollStatus_watch_schedule_witness :
    (watchTrace "t" [PollResult.err, PollResult.ok procResp, PollResult.ok doneResp])[0]? =
      some ⟨0, "t", PollResult.err⟩ ∧
    (watchTrace "t" [PollResult.err, PollResult.ok procResp, PollResult.ok doneResp]).length = 2 + 1 ∧
    watchTrace "t" ([PollResult.err, PollResult.ok procResp] ++ PollResult.ok doneResp :: [PollResult.err]) =
      watchTrace "t" ([PollResult.err, PollResult.ok procResp] ++ [PollResult.ok doneResp]) := by
  have h := pollStatus_watch_schedule "t"
    [PollResult.err, PollResult.ok procResp, PollResult.ok doneResp]
    [PollResult.err, PollResult.ok procResp] [PollResult.err]
    PollResult.err (PollResult.ok doneResp)
    [PollResult.ok procResp, PollResult.ok doneResp] 2
    ⟨2000, "t", PollResult.ok doneResp⟩ ⟨0, "t", PollResult.err⟩
  exact ⟨h.1, h.2.2.1 (by decide) (by decide), (h.2.2.2.2 (by decide) (by decide)).1⟩

/-! ### C3 — `getTaskStatus` and the synthesized 404 record -/

/-- Counterexample to C3 as stated: on a 404 the synthesized record's
`error` is the string `"Task not found or expired"` (capital T, from
api.ts line 99), not the claimed `"task not found or expired"`. -/
theorem getTaskStatus_error_string_cex :
    getTaskStatus "t1" "2026-01-01T00:00:00Z"
        (Except.error { isAxiosError := true, responseStatus := some 404 }) =
      Except.ok (taskNotFoundRecord "t1" "2026-01-01T00:00:00Z") ∧
    (taskNotFoundRecord "t1" "2026-01-01T00:00:00Z").error =
      some "Task not found or expired" ∧
    (taskNotFoundRecord "t1" "2026-01-01T00:00:00Z").error ≠
      some "task not found or expired" := by
  exact ⟨rfl, by decide, by decide⟩

/-- C3 (amended: the error string is `"Task not found or expired"`, with a
capital T): `getTaskStatus` returns the synthesized terminal record
exactly when the remote request rejects with an axios 404 — that record
has `status = failed`, `result = null` and the non-null error string —
while any other rejection is re-thrown to the caller, and a resolved
response is returned unchanged. -/
theorem getTaskStatus_behavior (id now : String)
    (remote : Except AxiosErr TaskStatusResponse) :
    (∀ e, remote = Except.error e → e.isAxiosError = true → e.responseStatus = some 404 →
      getTaskStatus id now remote = Except.ok
        { task_id := id, status := TaskStatus.failed, progress := 0,
          current_step := "Task not found", created_at := now, updated_at := now,
          result := none, error := some "Task not found or expired" })
    ∧ (∀ e, remote = Except.error e →
        (e.isAxiosError = false ∨ e.responseStatus ≠ some 404) →
        getTaskStatus id now remote = Except.error e)
    ∧ (∀ r, remote = Except.ok r → getTaskStatus id now remote = Except.ok r) := by
  refine ⟨?_, ?_, ?_⟩
  · intro e he ha h404
    subst he
    simp [getTaskStatus, ha, h404, taskNotFoundRecord]
  · intro e he hcond
    subst he
    have hc : (e.isAxiosError && e.responseStatus == some 404) = false := by
      rcases hcond with ha | h404
      · simp [ha]
      · simp [h404]
    simp [getTaskStatus, hc]
  · intro r he
    subst he
    rfl

theorem getTaskStatus_behavior_witness :
    getTaskStatus "t1" "now"
        (Except.error { isAxiosError := true, responseStatus := some 404 }) =
      Except.ok
        { task_id := "t1", status := TaskStatus.failed, progress := 0,
          current_step := "Task not found", created_at := "now", updated_at := "now",
          result := none, error := some "Task not found or expired" } ∧
    getTaskStatus "t1" "now"
        (Except.error { isAxiosError := true, responseStatus := some 500 }) =
      Except.error { isAxiosError := true, responseStatus := some 500 } := by
  have h1 := getTaskStatus_behavior "t1" "now"
    (Except.error { isAxiosError := true, responseStatus := some 404 })
  have h2 := getTaskStatus_behavior "t1" "now"
    (Except.error { isAxiosError := true, responseStatus := some 500 })
  exact ⟨h1.1 _ rfl rfl rfl, h2.2.1 _ rfl (Or.inr (by decide))⟩

/-! ### C10 — bounds discipline of the positional lookup -/

theorem jsFindIndex_eq_none_of_all {α : Type} (p : α → Bool) :
    ∀ l : List α, (∀ x ∈ l, p x = false) → jsFindIndex p l = none := by
  intro l
  induction l with
  | nil => intro _; rfl
  | cons x xs ih =>
    intro h
    have hx := h x (by simp)
    simp [jsFindIndex, hx]
    exact ih (fun y hy => h y (by simp [hy]))

/-- C10: in the positional lookup of `fetchPage` (WikiViewer.tsx lines
199-221), if the selected id is absent from the depth-first flattening of
the tree (`findIndex` gives -1), or the found depth-first index is beyond
the content-URL list, the lookup fails with the `Content URL not found`
error; otherwise it returns exactly the URL at that depth-first index —
the list is never indexed out of bounds and no clamping or wrap-around to
a different URL occurs. -/
theorem positionalLookup_bounds (structureItems : WikiForest) (selectedId : String)
    (contentUrls : List String) :
    ((∀ it ∈ flattenStructure structureItems, it.id ≠ selectedId) →
      positionalLookup structureItems selectedId contentUrls =
        Except.error ("Content URL not found for " ++ selectedId))
    ∧ (∀ i, jsFindIndex (fun it => it.id == selectedId) (flattenStructure structureItems) = some i →
        contentUrls.length ≤ i →
        positionalLookup structureItems selectedId contentUrls =
          Except.error ("Content URL not found for " ++ selectedId))
    ∧ (∀ i (h : i < contentUrls.length),
        jsFindIndex (fun it => it.id == selectedId) (flattenStructure structureItems) = some i →
        positionalLookup structureItems selectedId contentUrls =
          Except.ok (contentUrls.get ⟨i, h⟩)) := by
  refine ⟨?_, ?_, ?_⟩
  · intro hall
    have hnone : jsFindIndex (fun it => it.id == selectedId)
        (flattenStructure structureItems) = none := by
      refine jsFindIndex_eq_none_of_all _ _ ?_
      intro x hx
      simpa using hall x hx
    simp [positionalLookup, hnone]
  · intro i hfind hle
    simp [positionalLookup, hfind]
    omega
  · intro i h hfind
    simp [positionalLookup, hfind, h]

theorem positionalLookup_bounds_witness :
    positionalLookup
        (forestOf [WikiItem.mk "a" "A" (some "a.json") WikiForest.nil,
                   WikiItem.mk "b" "B" (some "b.json") WikiForest.nil])
        "b" ["https://h/p/a.json"] =
      Except.error ("Content URL not found for " ++ "b") ∧
    positionalLookup
        (forestOf [WikiItem.mk "a" "A" (some "a.json") WikiForest.nil,
                   WikiItem.mk "b" "B" (some "b.json") WikiForest.nil])
        "a" ["https://h/p/a.json"] =
      Except.ok "https://h/p/a.json" := by
  have h1 := positionalLookup_bounds
    (forestOf [WikiItem.mk "a" "A" (some "a.json") WikiForest.nil,
               WikiItem.mk "b" "B" (some "b.json") WikiForest.nil])
    "b" ["https://h/p/a.json"]
  have h2 := positionalLookup_bounds
    (forestOf [WikiItem.mk "a" "A" (some "a.json") WikiForest.nil,
               WikiItem.mk "b" "B" (some "b.json") WikiForest.nil])
    "a" ["https://h/p/a.json"]
  refine ⟨h1.2.1 1 rfl (by decide), ?_⟩
  have := h2.2.2 0 (by decide) rfl
  simpa using this

mutual
theorem findItemById_eq_none_iff : ∀ (items : WikiForest) (i : String),
    findItemById items i = none ↔ ∀ it ∈ flattenStructure items, it.id ≠ i
  | WikiForest.nil, i => by simp [findItemById, flattenStructure]
  | WikiForest.cons item rest, i => by
    rw [findItemById]
    cases hfi : findInItem item i with
    | some found =>
      simp only []
      constructor
      · intro h
        exact Option.noConfusion h
      · intro hall
        have hnone := (findInItem_eq_none_iff item i).mpr
          (fun it hit => hall it (by simp [flattenStructure, hit]))
        rw [hnone] at hfi
        exact Option.noConfusion hfi
    | none =>
      simp only []
      rw [findItemById_eq_none_iff rest i]
      have hitem := (findInItem_eq_none_iff item i).mp hfi
      constructor
      · intro hall it hit
        simp [flattenStructure] at hit
        rcases hit with hit | hit
        · exact hitem it hit
        · exact hall it hit
      · intro hall it hit
        exact hall it (by simp [flattenStructure, hit])
theorem findInItem_eq_none_iff : ∀ (item : WikiItem) (i : String),
    findInItem item i = none ↔ ∀ it ∈ flattenItem item, it.id ≠ i
  | WikiItem.mk id0 t f cs, i => by
    rw [findInItem]
    by_cases h : id0 = i
    · subst h
      simp only [if_pos rfl]
      constructor
      · intro hc
        exact Option.noConfusion hc
      · intro hall
        have hmem : WikiItem.mk id0 t f cs ∈ flattenItem (WikiItem.mk id0 t f cs) := by
          simp [flattenItem]
        have hne := hall _ hmem
        rw [WikiItem.id] at hne
        exact (hne rfl).elim
    · rw [if_neg h]
      rw [findItemById_eq_none_iff cs i]
      constructor
      · intro hall it hit
        simp [flattenItem] at hit
        rcases hit with hit | hit
        · subst hit
          simpa [WikiItem.id] using h
        · exact hall it hit
      · intro hall it hit
        exact hall it (by simp [flattenItem, hit])
end

theorem jsFindIndex_map {α β : Type} (f : α → β) (p : β → Bool) :
    ∀ l : List α, jsFindIndex p (l.map f) = jsFindIndex (fun x => p (f x)) l := by
  intro l
  induction l with
  | nil => rfl
  | cons x xs ih => simp [jsFindIndex, ih]

theorem jsFindIndex_eq_none_iff {α : Type} (p : α → Bool) :
    ∀ l : List α, jsFindIndex p l = none ↔ ∀ x ∈ l, p x = false := by
  intro l
  induction l with
  | nil => simp [jsFindIndex]
  | cons x xs ih =>
    by_cases hx : p x
    · simp [jsFindIndex, hx]
    · simp [jsFindIndex, hx, ih]

/-- What `fetchPageResolve` computes, as a function of the depth-first id
sequence alone: existence of the id decides the `Page not found` guard,
and the position of its first occurrence picks the URL. -/
def resolveFromIds (ids : List String) (selectedId : String)
    (contentUrls : List String) : Except String String :=
  match jsFindIndex (fun s => s == selectedId) ids with
  | none => Except.error "Page not found in structure"
  | some index =>
    if h : index < contentUrls.length then Except.ok (contentUrls.get ⟨index, h⟩)
    else Except.error ("Content URL not found for " ++ selectedId)

theorem fetchPageResolve_eq_resolveFromIds (items : WikiForest)
    (selectedId : String) (contentUrls : List String) :
    fetchPageResolve items selectedId contentUrls =
      resolveFromIds ((flattenStructure items).map WikiItem.id) selectedId contentUrls := by
  have hmap := jsFindIndex_map WikiItem.id (fun s => s == selectedId)
    (flattenStructure items)
  cases hfi : findItemById items selectedId with
  | none =>
    have hall := (findItemById_eq_none_iff items selectedId).mp hfi
    have hnone : jsFindIndex (fun it => WikiItem.id it == selectedId)
        (flattenStructure items) = none := by
      rw [jsFindIndex_eq_none_iff]
      intro x hx
      simpa using hall x hx
    rw [fetchPageResolve, hfi]
    unfold resolveFromIds
    rw [hmap, hnone]
  | some it =>
    have hne : ¬ (∀ x ∈ flattenStructure items, x.id ≠ selectedId) := by
      intro hall
      have hno : findItemById items selectedId = none :=
        (findItemById_eq_none_iff items selectedId).mpr hall
      rw [hno] at hfi
      exact Option.noConfusion hfi
    have hsome : jsFindIndex (fun x => WikiItem.id x == selectedId)
        (flattenStructure items) ≠ none := by
      intro hn
      exact hne fun x hx => by simpa using (jsFindIndex_eq_none_iff _ _).mp hn x hx
    rw [fetchPageResolve, hfi]
    unfold positionalLookup resolveFromIds
    rw [hmap]
    cases hj : jsFindIndex (fun x => WikiItem.id x == selectedId)
        (flattenStructure items) with
    | none => exact absurd hj hsome
    | some index => simp [hj]

theorem findMatchedUrl_first {item : P1Item} :
    ∀ (urls : List String) (i : Nat) (url : String),
      urls[i]? = some url → matchesItem item url = true →
      (∀ j u, j < i → urls[j]? = some u → matchesItem item u = false) →
      findMatchedUrl item urls = some url := by
  intro urls
  induction urls with
  | nil => intro i url h _ _; simp at h
  | cons u0 rest ih =>
    intro i url h hm hbefore
    cases i with
    | zero =>
      simp at h
      subst h
      simp [findMatchedUrl, hm]
    | succ n =>
      simp at h
      have h0 : matchesItem item u0 = false := hbefore 0 u0 (by omega) (by simp)
      simp [findMatchedUrl, h0]
      exact ih n url h hm fun j u hj hu => hbefore (j + 1) u (by omega) (by simpa using hu)

theorem findMatchedUrl_none {item : P1Item} :
    ∀ urls : List String, (∀ u ∈ urls, matchesItem item u = false) →
      findMatchedUrl item urls = none := by
  intro urls
  induction urls with
  | nil => intro _; rfl
  | cons u0 rest ih =>
    intro h
    have h0 := h u0 (by simp)
    simp [findMatchedUrl, h0]
    exact ih fun u hu => h u (by simp [hu])

theorem matchesItem_of_exact (item : P1Item) (url fn : String) :
    extractFilename url = some fn → fn = expectedFilename item →
    matchesItem item url = true := by
  intro hex hfn
  unfold matchesItem
  rw [hex]
  simp [hfn]

/-- Counterexample to C1 as stated: in the current WikiViewer.tsx
reconciliation, the node `{id:"intro", filename:"intro.json"}` — whose
declared filename equals the trailing path segment of the second URL — is
nevertheless bound to the *first* URL, because its depth-first index is 0:
filename matching does not take precedence there (it does not exist in
that code path at all). -/
theorem reconciliation_positional_ignores_filename_cex :
    extractFilename "https://h/p/intro.json" = some "intro.json" ∧
    (WikiItem.mk "intro" "Introduction" (some "intro.json") WikiForest.nil).filename =
      some "intro.json" ∧
    fetchPageResolve
        (forestOf [WikiItem.mk "intro" "Introduction" (some "intro.json") WikiForest.nil])
        "intro" ["https://h/p/overview.json", "https://h/p/intro.json"] =
      Except.ok "https://h/p/overview.json" ∧
    ("https://h/p/overview.json" : String) ≠ "https://h/p/intro.json" := by
  exact ⟨rfl, rfl, rfl, by decide⟩

/-- C1 (amended): the two reconciliation variants split the claimed
behaviour.  (1) The current WikiViewer.tsx `fetchPage` is purely
positional: its result depends only on the depth-first id sequence, the
selected id and the URL list, so declared filenames never influence it and
it cannot prefer a filename match.  (2) The part_001 variant matches by
filename only, choosing the first URL in list order satisfying one of its
strategies — exact equality of the URL's trailing segment with the node's
declared-or-derived filename being one of them — regardless of the node's
depth-first position.  (3) That variant has no positional fallback: when
no URL matches, the lookup yields nothing (and `fetchPage` throws). -/
theorem reconciliation_filename_vs_positional
    (items items' : WikiForest) (selectedId : String) (contentUrls : List String)
    (item : P1Item) (urls : List String) (i : Nat) (url fn : String) :
    ((flattenStructure items).map WikiItem.id =
        (flattenStructure items').map WikiItem.id →
      fetchPageResolve items selectedId contentUrls =
        fetchPageResolve items' selectedId contentUrls)
    ∧ (urls[i]? = some url → matchesItem item url = true →
        (∀ j u, j < i → urls[j]? = some u → matchesItem item u = false) →
        findMatchedUrl item urls = some url)
    ∧ (extractFilename url = some fn → fn = expectedFilename item →
        matchesItem item url = true)
    ∧ ((∀ u ∈ urls, matchesItem item u = false) →
        findMatchedUrl item urls = none) := by
  refine ⟨?_, findMatchedUrl_first urls i url, matchesItem_of_exact item url fn,
    findMatchedUrl_none urls⟩
  intro hids
  rw [fetchPageResolve_eq_resolveFromIds, fetchPageResolve_eq_resolveFromIds, hids]

theorem reconciliation_filename_vs_positional_witness :
    findMatchedUrl ⟨"intro", some "intro.json"⟩
        ["https://h/p/overview.json", "https://h/p/intro.json"] =
      some "https://h/p/intro.json" ∧
    matchesItem ⟨"intro", some "intro.json"⟩ "https://h/p/intro.json" = true := by
  have h := reconciliation_filename_vs_positional WikiForest.nil WikiForest.nil "x" []
    ⟨"intro", some "intro.json"⟩ ["https://h/p/overview.json", "https://h/p/intro.json"]
    1 "https://h/p/intro.json" "intro.json"
  have hmatch : matchesItem ⟨"intro", some "intro.json"⟩ "https://h/p/intro.json" = true :=
    h.2.2.1 rfl rfl
  refine ⟨?_, hmatch⟩
  refine h.2.1 (by rfl) hmatch ?_
  intro j u hj hu
  have hj0 : j = 0 := by omega
  subst hj0
  simp at hu
  subst hu
  rfl

/-! ### C4 — PayloadParser shape guarantee -/

/-- C4: evaluation of the code at the failing input.  A payload whose
`intro` is the serialized object with a numeric `intro`, a string
`sections` and a numeric `mermaid` makes `parseContentSafely` return
exactly those unvalidated inner values: `intro` is a number (not a
string), `sections` is a string (not an array), `mermaid` is a number —
contradicting the claimed always-valid `{intro, sections, mermaid}` shape
(and the function's own declared return type `WikiPageContent['content']`,
whose `intro` is a `string` and `sections` a `Section[]`). -/
theorem parseContentSafely_shape_violation_eval :
    runParseContentSafely (JsonVal.obj
        [("intro", JsonVal.str "\x7b\"intro\":42,\"sections\":\"oops\",\"mermaid\":7\x7d"),
         ("sections", JsonVal.arr [])]) =
      { intro := JsonVal.num 42, sections := JsonVal.str "oops",
        mermaid := JsonVal.num 7 } := rfl

/-! ### C5 — the serialized-`intro` reparse path -/

/-- Counterexample to C5 as stated: for `intro` equal to the serialized
object `'{"intro":"","sections":[]}'`, the parsed object *does* carry an
`intro` field (the empty string), yet the result keeps the outer
serialized string: the parsed field is not authoritative and the outer
value is used for a present-but-falsy field, not only for a missing
one. -/
theorem parseContentSafely_falsy_fallback_cex :
    jsonParse "\x7b\"intro\":\"\",\"sections\":[]\x7d" =
      some (JsonVal.obj [("intro", JsonVal.str ""), ("sections", JsonVal.arr [])]) ∧
    jget (JsonVal.obj [("intro", JsonVal.str ""), ("sections", JsonVal.arr [])]) "intro" =
      some (JsonVal.str "") ∧
    (runParseContentSafely (JsonVal.obj
        [("intro", JsonVal.str "\x7b\"intro\":\"\",\"sections\":[]\x7d"),
         ("sections", JsonVal.arr [])])).intro =
      JsonVal.str "\x7b\"intro\":\"\",\"sections\":[]\x7d" ∧
    JsonVal.str "\x7b\"intro\":\"\",\"sections\":[]\x7d" ≠ JsonVal.str "" := by
  refine ⟨rfl, rfl, rfl, by simp⟩

/-- C5 (amended: a parsed field is authoritative when present *and
truthy*; the outer value is used for a missing or falsy parsed field, per
JS `||`): if the raw content is an object with string `intro` and array
`sections`, and `intro` after trimming begins with a brace and parses as
JSON, then each of `intro`/`sections`/`mermaid` is taken from the parsed
object when present and truthy, and otherwise falls back to the outer
`intro` string, the outer `sections` array, and the outer `mermaid` (or
`""`) respectively; in particular the spec's example input yields
`{intro: "real intro", sections: [], mermaid: ""}` (see the witness). -/
theorem parseContentSafely_inner_reparse (fuel : Nat)
    (fields : List (String × JsonVal)) (introStr : String)
    (secs : List JsonVal) (p : JsonVal) :
    getField fields "intro" = some (JsonVal.str introStr) →
    getField fields "sections" = some (JsonVal.arr secs) →
    jsStartsWith (jsTrim introStr) "\x7b" = true →
    jsonParse introStr = some p →
    ((∀ v, jget p "intro" = some v → truthy v = true →
        (parseContentSafely fuel (JsonVal.obj fields)).intro = v)
      ∧ ((jget p "intro" = none ∨ (∃ v, jget p "intro" = some v ∧ truthy v = false)) →
        (parseContentSafely fuel (JsonVal.obj fields)).intro = JsonVal.str introStr)
      ∧ (∀ v, jget p "sections" = some v → truthy v = true →
        (parseContentSafely fuel (JsonVal.obj fields)).sections = v)
      ∧ ((jget p "sections" = none ∨ (∃ v, jget p "sections" = some v ∧ truthy v = false)) →
        (parseContentSafely fuel (JsonVal.obj fields)).sections = JsonVal.arr secs)
      ∧ (∀ v, jget p "mermaid" = some v → truthy v = true →
        (parseContentSafely fuel (JsonVal.obj fields)).mermaid = v)
      ∧ ((jget p "mermaid" = none ∨ (∃ v, jget p "mermaid" = some v ∧ truthy v = false)) →
        (parseContentSafely fuel (JsonVal.obj fields)).mermaid =
          jsOrField (getField fields "mermaid") (JsonVal.str ""))) := by
  intro hintro hsecs hbrace hparse
  have hres : parseContentSafely fuel (JsonVal.obj fields) =
      { intro := jsOrField (jget p "intro") (JsonVal.str introStr)
        sections := jsOrField (jget p "sections")
          (jsOrField (some (JsonVal.arr secs)) (JsonVal.arr []))
        mermaid := jsOrField (jget p "mermaid")
          (jsOrField (getField fields "mermaid") (JsonVal.str "")) } := by
    simp [parseContentSafely, hintro, hsecs, hbrace, hparse]
  rw [hres]
  refine ⟨?_, ?_, ?_, ?_, ?_, ?_⟩
  · intro v hv ht
    simp [jsOrField, hv, ht]
  · intro hcase
    rcases hcase with hnone | ⟨v, hv, hf⟩
    · simp [jsOrField, hnone]
    · simp [jsOrField, hv, hf]
  · intro v hv ht
    simp [jsOrField, hv, ht]
  · intro hcase
    rcases hcase with hnone | ⟨v, hv, hf⟩
    · simp only [jsOrField, hnone]
      simp [truthy]
    · simp only [jsOrField, hv, hf]
      simp [truthy]
  · intro v hv ht
    simp [jsOrField, hv, ht]
  · intro hcase
    rcases hcase with hnone | ⟨v, hv, hf⟩
    · simp [jsOrField, hnone]
    · simp [jsOrField, hv, hf]

theorem parseContentSafely_inner_reparse_witness :
    (runParseContentSafely (JsonVal.obj
        [("intro", JsonVal.str "\x7b\"intro\":\"real intro\",\"sections\":[]\x7d"),
         ("sections", JsonVal.arr [])])).intro = JsonVal.str "real intro" ∧
    (runParseContentSafely (JsonVal.obj
        [("intro", JsonVal.str "\x7b\"intro\":\"real intro\",\"sections\":[]\x7d"),
         ("sections", JsonVal.arr [])])).sections = JsonVal.arr [] ∧
    (runParseContentSafely (JsonVal.obj
        [("intro", JsonVal.str "\x7b\"intro\":\"real intro\",\"sections\":[]\x7d"),
         ("sections", JsonVal.arr [])])).mermaid = JsonVal.str "" := by
  have h := parseContentSafely_inner_reparse 1
    [("intro", JsonVal.str "\x7b\"intro\":\"real intro\",\"sections\":[]\x7d"),
     ("sections", JsonVal.arr [])]
    "\x7b\"intro\":\"real intro\",\"sections\":[]\x7d" []
    (JsonVal.obj [("intro", JsonVal.str "real intro"), ("sections", JsonVal.arr [])])
    rfl rfl rfl rfl
  refine ⟨h.1 (JsonVal.str "real intro") rfl rfl,
    h.2.2.1 (JsonVal.arr []) rfl rfl, ?_⟩
  have hm := h.2.2.2.2.2 (Or.inl rfl)
  simpa [jsOrField, getField] using hm

/-! ### C6 — the structure normalizer -/

theorem normalizeStructure_get :
    ∀ (items : List JsonVal) (out : List NormItem) (i : Nat) (item : JsonVal),
      normalizeStructure items = Except.ok out → items[i]? = some item →
      ∃ ni, normalizeItem item = Except.ok ni ∧ out[i]? = some ni := by
  intro items
  induction items with
  | nil => intro out i item _ h; simp at h
  | cons x xs ih =>
    intro out i item hok hget
    rw [normalizeStructure] at hok
    cases hx : normalizeItem x with
    | error e => rw [hx] at hok; exact Except.noConfusion hok
    | ok nx =>
      rw [hx] at hok
      cases hxs : normalizeStructure xs with
      | error e =>
        rw [hxs] at hok
        exact Except.noConfusion hok
      | ok nxs =>
        rw [hxs] at hok
        simp at hok
        subst hok
        cases i with
        | zero =>
          simp at hget
          subst hget
          exact ⟨nx, hx, by simp⟩
        | succ n =>
          simp at hget
          rcases ih nxs n item hxs hget with ⟨ni, hni, hout⟩
          exact ⟨ni, hni, by simpa using hout⟩

theorem normalizeStructure_length :
    ∀ (items : List JsonVal) (out : List NormItem),
      normalizeStructure items = Except.ok out → out.length = items.length := by
  intro items
  induction items with
  | nil =>
    intro out h
    rw [normalizeStructure] at h
    simp at h
    subst h
    rfl
  | cons x xs ih =>
    intro out h
    rw [normalizeStructure] at h
    cases hx : normalizeItem x with
    | error e => rw [hx] at h; exact Except.noConfusion h
    | ok nx =>
      rw [hx] at h
      cases hxs : normalizeStructure xs with
      | error e => rw [hxs] at h; exact Except.noConfusion h
      | ok nxs =>
        rw [hxs] at h
        simp at h
        subst h
        simp [ih nxs hxs]

/-- Counterexample to C6 as stated: the nested child is *not* recursively
normalized.  The output stores the raw child object (which has no `id`
key) verbatim under `children`, although normalizing that child would
have produced id `"c"` and filename `"c.json"`. -/
theorem normalizeStructure_children_raw_cex :
    normalizeStructure
        [JsonVal.obj [("id", JsonVal.str "a"), ("title", JsonVal.str "A"),
          ("children", JsonVal.arr [JsonVal.obj
            [("section_id", JsonVal.str "c"), ("title", JsonVal.str "C")]])]] =
      Except.ok [{ id := JsonVal.str "a", title := JsonVal.str "A",
                   filename := JsonVal.str "a.json",
                   children := some (JsonVal.arr [JsonVal.obj
                     [("section_id", JsonVal.str "c"), ("title", JsonVal.str "C")]]) }] ∧
    getField [("section_id", JsonVal.str "c"), ("title", JsonVal.str "C")] "id" =
      none ∧
    normalizeItem (JsonVal.obj
        [("section_id", JsonVal.str "c"), ("title", JsonVal.str "C")]) =
      Except.ok { id := JsonVal.str "c", title := JsonVal.str "C",
                  filename := JsonVal.str "c.json", children := none } := by
  exact ⟨rfl, rfl, rfl⟩

/-- C6 (amended: only the top-level nodes of the array are normalized;
`children` is passed through verbatim, not recursively normalized): the
`i`-th output node is `normalizeItem` of the `i`-th input; on an object
node the derived id follows the priority explicit `id` field (if truthy)
→ `section_id` field (if truthy) → declared string filename with the
first `".json"` occurrence removed (if the remainder is nonempty) → the
literal `"unknown"`; the output filename is the declared filename when
truthy and otherwise the derived id coerced to a string plus `".json"`;
and the output `children` is the raw `children` property of the input,
whatever its shape. -/
theorem normalizeStructure_fields (items : List JsonVal) (out : List NormItem)
    (i : Nat) (item : JsonVal) (fields : List (String × JsonVal)) (v : JsonVal)
    (s : String) (ni : NormItem) :
    (normalizeStructure items = Except.ok out → items[i]? = some item →
      ∃ m, normalizeItem item = Except.ok m ∧ out[i]? = some m)
    ∧ (normalizeStructure items = Except.ok out → out.length = items.length)
    ∧ (getField fields "id" = some v → truthy v = true →
        normalizeItem (JsonVal.obj fields) = Except.ok ni → ni.id = v)
    ∧ (truthyOpt (getField fields "id") = none →
        getField fields "section_id" = some v → truthy v = true →
        normalizeItem (JsonVal.obj fields) = Except.ok ni → ni.id = v)
    ∧ (truthyOpt (getField fields "id") = none →
        truthyOpt (getField fields "section_id") = none →
        getField fields "filename" = some (JsonVal.str s) →
        replaceFirst s ".json" "" ≠ "" →
        normalizeItem (JsonVal.obj fields) = Except.ok ni →
        ni.id = JsonVal.str (replaceFirst s ".json" ""))
    ∧ (truthyOpt (getField fields "id") = none →
        truthyOpt (getField fields "section_id") = none →
        getField fields "filename" = none →
        normalizeItem (JsonVal.obj fields) = Except.ok ni →
        ni.id = JsonVal.str "unknown")
    ∧ (getField fields "filename" = some v → truthy v = true →
        normalizeItem (JsonVal.obj fields) = Except.ok ni → ni.filename = v)
    ∧ (truthyOpt (getField fields "filename") = none →
        normalizeItem (JsonVal.obj fields) = Except.ok ni →
        ni.filename = JsonVal.str (jsToString ni.id ++ ".json"))
    ∧ (normalizeItem (JsonVal.obj fields) = Except.ok ni →
        ni.children = getField fields "children") := by
  refine ⟨normalizeStructure_get items out i item, normalizeStructure_length items out,
    ?_, ?_, ?_, ?_, ?_, ?_, ?_⟩
  · intro hv ht hok
    simp only [normalizeItem, jget, truthyOpt, hv, ht, if_true] at hok
    injection hok with h
    subst h
    rfl
  · intro hid hv ht hok
    simp only [normalizeItem, jget] at hok
    rw [hid] at hok
    simp only [truthyOpt, hv, ht, if_true] at hok
    injection hok with h
    subst h
    rfl
  · intro hid hsec hfn hne hok
    simp only [normalizeItem, jget] at hok
    rw [hid, hsec] at hok
    simp only [hfn, if_neg hne] at hok
    injection hok with h
    subst h
    rfl
  · intro hid hsec hfn hok
    simp only [normalizeItem, jget] at hok
    rw [hid, hsec] at hok
    simp only [hfn] at hok
    injection hok with h
    subst h
    rfl
  · intro hv ht hok
    simp only [normalizeItem, jget] at hok
    split at hok
    · exact Except.noConfusion hok
    · injection hok with h
      subst h
      simp only [truthyOpt, hv, ht, if_true]
  · intro hfn hok
    simp only [normalizeItem, jget] at hok
    split at hok
    · exact Except.noConfusion hok
    · injection hok with h
      subst h
      simp only [hfn]
  · intro hok
    simp only [normalizeItem, jget] at hok
    split at hok
    · exact Except.noConfusion hok
    · injection hok with h
      subst h
      rfl

/-- A concrete normalized node for the C6 witness. -/
def normItemWitness : NormItem :=
  { id := JsonVal.str "sec", title := JsonVal.str "T",
    filename := JsonVal.str "sec.json", children := none }

theorem normalizeStructure_fields_witness :
    normItemWitness.id = JsonVal.str "sec" ∧
    normItemWitness.filename = JsonVal.str (jsToString normItemWitness.id ++ ".json") ∧
    normItemWitness.children =
      getField [("section_id", JsonVal.str "sec"), ("title", JsonVal.str "T")] "children" := by
  have h := normalizeStructure_fields [] [] 0 JsonVal.null
    [("section_id", JsonVal.str "sec"), ("title", JsonVal.str "T")]
    (JsonVal.str "sec") "" normItemWitness
  exact ⟨h.2.2.2.1 rfl rfl rfl rfl, h.2.2.2.2.2.2.2.1 rfl rfl,
    h.2.2.2.2.2.2.2.2 rfl⟩

/-! ### C7 — per-page failures reach the global error state -/

/-- C7: evaluation of the code at the failing input.  In a healthy viewer
showing a two-node structure (both pages reachable in the sidebar), the
user selects the second node while only one content URL exists.  The
positional lookup throws, the catch block stores the component-global
error, and the component then renders the whole-viewer error screen — the
structure sidebar (and with it every other page) is gone, instead of the
failure staying local to that page. -/
theorem fetchPage_global_error_eval :
    renderWiki
        { contentUrls := ["https://h/p/a.json"],
          structureItems := forestOf [WikiItem.mk "a" "A" (some "a.json") WikiForest.nil,
                                      WikiItem.mk "b" "B" (some "b.json") WikiForest.nil],
          selectedId := some "b", pageContent := none,
          loading := false, loadingPage := true, error := none } =
      WikiRender.viewer
        (forestOf [WikiItem.mk "a" "A" (some "a.json") WikiForest.nil,
                   WikiItem.mk "b" "B" (some "b.json") WikiForest.nil]) none ∧
    (fetchPageEffect
        { contentUrls := ["https://h/p/a.json"],
          structureItems := forestOf [WikiItem.mk "a" "A" (some "a.json") WikiForest.nil,
                                      WikiItem.mk "b" "B" (some "b.json") WikiForest.nil],
          selectedId := some "b", pageContent := none,
          loading := false, loadingPage := true, error := none }
        (fun _ => Except.error "unreachable")).error =
      some "Failed to load page content." ∧
    renderWiki
        (fetchPageEffect
          { contentUrls := ["https://h/p/a.json"],
            structureItems := forestOf [WikiItem.mk "a" "A" (some "a.json") WikiForest.nil,
                                        WikiItem.mk "b" "B" (some "b.json") WikiForest.nil],
            selectedId := some "b", pageContent := none,
            loading := false, loadingPage := true, error := none }
          (fun _ => Except.error "unreachable")) =
      WikiRender.errorScreen "Failed to load page content." := by
  exact ⟨rfl, rfl, rfl⟩

/-! ### C8 — engine initialization and the fate of early render requests -/

theorem mermaidRun_initCount_inv :
    ∀ (evs : List MEvent) (st : MermaidProc),
      st.initCount = (if st.initialized then 1 else 0) →
      (evs.foldl mermaidStep st).initCount =
        (if (evs.foldl mermaidStep st).initialized then 1 else 0) := by
  intro evs
  induction evs with
  | nil => intro st h; exact h
  | cons e rest ih =>
    intro st h
    simp only [List.foldl_cons]
    refine ih (mermaidStep st e) ?_
    cases e with
    | mount c => simpa [mermaidStep] using h
    | loadDone =>
      by_cases hi : st.initialized
      · simp [mermaidStep, hi] at h ⊢
        exact h
      · simp [mermaidStep, hi] at h ⊢
        simp [h]
    | loadFail => simpa [mermaidStep] using h
    | chartChange i c => simpa [mermaidStep] using h

/-- Counterexample to C8 as stated: a render request (a mount with a
nonempty chart) arriving while the engine is not yet initialized is
dropped, not deferred.  After the initialization completes the component
still has no render scheduled — the render effect only re-runs on a chart
change, never on initialization completing. -/
theorem mermaid_deferred_render_dropped_cex :
    (mermaidRun [MEvent.mount "graph TD", MEvent.loadDone]).initialized = true ∧
    (mermaidRun [MEvent.mount "graph TD", MEvent.loadDone]).initCount = 1 ∧
    (mermaidRun [MEvent.mount "graph TD", MEvent.loadDone]).comps =
      [{ chart := "graph TD", rendered := false }] := by
  exact ⟨rfl, rfl, rfl⟩

/-- C8 (amended: the at-most-once initialization holds, but a render
request arriving while the engine is not yet initialized is *dropped*
rather than deferred): over every event trace the engine is initialized
at most once (`initCount` is 0 before initialization and exactly 1 after,
so repeated mounts and load completions never re-initialize, and a
`loadDone` after initialization only re-affirms the module handle,
leaving the components untouched); a mount or chart change occurring
after initialization does get its render scheduled (when the chart is
nonempty); but a mount before initialization is recorded unrendered and
stays unrendered when initialization completes. -/
theorem mermaid_init_once_render_policy (evs : List MEvent) (c : String) (i : Nat) :
    ((mermaidRun evs).initCount = (if (mermaidRun evs).initialized then 1 else 0))
    ∧ ((mermaidRun evs).initCount ≤ 1)
    ∧ ((mermaidRun evs).initialized = true →
        mermaidRun (evs ++ [MEvent.loadDone]) =
          { mermaidRun evs with moduleLoaded := true })
    ∧ ((mermaidRun evs).initialized = true → (mermaidRun evs).moduleLoaded = true →
        mermaidRun (evs ++ [MEvent.mount c]) =
          { mermaidRun evs with
              comps := (mermaidRun evs).comps ++ [⟨c, !(c == "")⟩] })
    ∧ ((mermaidRun evs).initialized = true → (mermaidRun evs).moduleLoaded = true →
        mermaidRun (evs ++ [MEvent.chartChange i c]) =
          { mermaidRun evs with
              comps := (mermaidRun evs).comps.set i ⟨c, !(c == "")⟩ })
    ∧ ((mermaidRun evs).initialized = false →
        (mermaidRun (evs ++ [MEvent.mount c, MEvent.loadDone])).comps =
          (mermaidRun evs).comps ++ [⟨c, false⟩]) := by
  have hinv : (mermaidRun evs).initCount =
      (if (mermaidRun evs).initialized then 1 else 0) :=
    mermaidRun_initCount_inv evs mermaidStart (by rfl)
  refine ⟨hinv, ?_, ?_, ?_, ?_, ?_⟩
  · rw [hinv]
    split <;> omega
  · intro hi
    show (evs ++ [MEvent.loadDone]).foldl mermaidStep mermaidStart = _
    rw [List.foldl_append]
    simp [mermaidRun] at hi ⊢
    simp [mermaidStep, hi]
  · intro hi hm
    show (evs ++ [MEvent.mount c]).foldl mermaidStep mermaidStart = _
    rw [List.foldl_append]
    simp [mermaidRun] at hi hm ⊢
    simp [mermaidStep, renderEffectFires, hi, hm]
  · intro hi hm
    show (evs ++ [MEvent.chartChange i c]).foldl mermaidStep mermaidStart = _
    rw [List.foldl_append]
    simp [mermaidRun] at hi hm ⊢
    simp [mermaidStep, renderEffectFires, hi, hm]
  · intro hi
    show ((evs ++ [MEvent.mount c, MEvent.loadDone]).foldl mermaidStep mermaidStart).comps = _
    rw [List.foldl_append]
    simp [mermaidRun] at hi ⊢
    simp [mermaidStep, renderEffectFires, hi]

theorem mermaid_init_once_render_policy_witness :
    mermaidRun ([MEvent.mount "g", MEvent.loadDone] ++ [MEvent.mount "h"]) =
      { mermaidRun [MEvent.mount "g", MEvent.loadDone] with
          comps := (mermaidRun [MEvent.mount "g", MEvent.loadDone]).comps ++
            [⟨"h", !(("h" : String) == "")⟩] } ∧
    (mermaidRun [MEvent.mount "g", MEvent.loadDone]).initCount = 1 := by
  have h := mermaid_init_once_render_policy [MEvent.mount "g", MEvent.loadDone] "h" 0
  refine ⟨h.2.2.2.1 rfl rfl, ?_⟩
  rw [h.1]
  rfl

/-! ### C9 — `prepareChart` and idempotency -/

/-- Counterexample to C9 as stated: `prepareChart` is not idempotent.  A
bracketed label containing a literal backslash-n plus a grammar-breaking
character is quote-wrapped on the first pass, but its real newline makes
the already-quoted test fail on the second pass (`.` in the regex does
not match a newline), so the label is wrapped *again*. -/
theorem prepareChart_not_idempotent_cex :
    prepareChart "A[a\\nb/c]" = "A[\"a\nb/c\"]" ∧
    prepareChart (prepareChart "A[a\\nb/c]") = "A[\"\"a\nb/c\"\"]" ∧
    prepareChart (prepareChart "A[a\\nb/c]") ≠ prepareChart "A[a\\nb/c]" := by
  exact ⟨rfl, rfl, by decide⟩

theorem dropWhile_eq_self_of_head (p : Char → Bool) :
    ∀ cs : List Char, (∀ c, cs.head? = some c → p c = false) → cs.dropWhile p = cs := by
  intro cs h
  cases cs with
  | nil => rfl
  | cons c rest => simp [List.dropWhile_cons, h c rfl]

theorem trimChars_eq_self (cs : List Char)
    (hhead : ∀ c, cs.head? = some c → isJsWs c = false)
    (hlast : ∀ c, cs.getLast? = some c → isJsWs c = false) : trimChars cs = cs := by
  unfold trimChars
  rw [dropWhile_eq_self_of_head _ cs hhead]
  rw [dropWhile_eq_self_of_head _ cs.reverse
    (fun c hc => hlast c (by rwa [← List.head?_reverse]))]
  exact List.reverse_reverse cs

theorem unescapeNewlines_eq_self :
    ∀ cs : List Char, (∀ c ∈ cs, c ≠ '\\') → unescapeNewlines cs = cs
  | [], _ => rfl
  | [c], _ => rfl
  | c1 :: c2 :: rest, h => by
    have h1 : c1 ≠ '\\' := h c1 (by simp)
    rw [unescapeNewlines]
    rw [if_neg (by tauto)]
    rw [unescapeNewlines_eq_self (c2 :: rest)
      (fun c hc => h c (by simp at hc ⊢; tauto))]

theorem isJsWs_cases (c : Char) (h : isJsWs c = true) :
    c = ' ' ∨ c = '\t' ∨ c = '\n' ∨ c = '\r' ∨ c = '\x0b' ∨ c = '\x0c' := by
  have hcs := h
  simp only [isJsWs, Bool.or_eq_true, decide_eq_true_eq] at hcs
  tauto

theorem isWordChar_not_ws (c : Char) (h : isWordChar c = true) : isJsWs c = false := by
  by_contra hne
  rcases isJsWs_cases c (by simpa using hne) with rfl | rfl | rfl | rfl | rfl | rfl <;>
    exact absurd h (by decide)

theorem isCloserChar_not_ws (c : Char) (h : isCloserChar c = true) : isJsWs c = false := by
  have hcs : (c = ']' ∨ c = ')') ∨ c = '\x7d' := by simpa [isCloserChar] using h
  rcases hcs with (rfl | rfl) | rfl <;> decide

theorem isOpenerChar_not_word (c : Char) (h : isOpenerChar c = true) :
    isWordChar c = false := by
  have hcs : (c = '[' ∨ c = '(') ∨ c = '\x7b' := by simpa [isOpenerChar] using h
  rcases hcs with (rfl | rfl) | rfl <;> decide

theorem isWordChar_ne_backslash (c : Char) (h : isWordChar c = true) : c ≠ '\\' := by
  intro hc
  subst hc
  exact absurd h (by decide)

theorem isOpenerChar_ne_backslash (c : Char) (h : isOpenerChar c = true) : c ≠ '\\' := by
  have hcs : (c = '[' ∨ c = '(') ∨ c = '\x7b' := by simpa [isOpenerChar] using h
  rcases hcs with (rfl | rfl) | rfl <;> decide

theorem isCloserChar_ne_backslash (c : Char) (h : isCloserChar c = true) : c ≠ '\\' := by
  have hcs : (c = ']' ∨ c = ')') ∨ c = '\x7d' := by simpa [isCloserChar] using h
  rcases hcs with (rfl | rfl) | rfl <;> decide

theorem takeWhile_append_not (p : Char → Bool) :
    ∀ (xs : List Char) (y : Char) (ys : List Char),
      (∀ c ∈ xs, p c = true) → p y = false →
      (xs ++ y :: ys).takeWhile p = xs := by
  intro xs
  induction xs with
  | nil => intro y ys _ hy; simp [List.takeWhile_cons, hy]
  | cons x rest ih =>
    intro y ys hall hy
    have hx : p x = true := hall x (by simp)
    simp only [List.cons_append, List.takeWhile_cons, hx]
    rw [ih y ys (fun c hc => hall c (by simp [hc])) hy]
    simp

theorem tryMatch_exact (w l : List Char) (o c : Char)
    (hw : w ≠ []) (hwall : ∀ x ∈ w, isWordChar x = true)
    (ho : isOpenerChar o = true)
    (hl : l ≠ []) (hlnc : ∀ x ∈ l, isCloserChar x = false)
    (hc : isCloserChar c = true) :
    tryMatch (w ++ o :: (l ++ [c])) = some (w, o, l, c, []) := by
  unfold tryMatch
  have htw : (w ++ o :: (l ++ [c])).takeWhile isWordChar = w :=
    takeWhile_append_not isWordChar w o (l ++ [c]) hwall (isOpenerChar_not_word o ho)
  rw [htw, if_neg hw]
  have hdw : (w ++ o :: (l ++ [c])).drop w.length = o :: (l ++ [c]) := by
    rw [List.drop_left]
  rw [hdw]
  simp only [ho, if_true]
  have htl : (l ++ c :: ([] : List Char)).takeWhile (fun x => !(isCloserChar x)) = l := by
    refine takeWhile_append_not _ l c [] ?_ ?_
    · intro x hx
      simp [hlnc x hx]
    · simp [hc]
  simp only [List.append_nil] at htl ⊢
  rw [show l ++ [c] = l ++ c :: ([] : List Char) by simp] at *
  rw [htl, if_neg hl]
  rw [List.drop_left]
  simp [hc]

theorem scanReplace_single (w l : List Char) (o c : Char) (fuel : Nat)
    (hw : w ≠ []) (hwall : ∀ x ∈ w, isWordChar x = true)
    (ho : isOpenerChar o = true)
    (hl : l ≠ []) (hlnc : ∀ x ∈ l, isCloserChar x = false)
    (hc : isCloserChar c = true) :
    scanReplace (Nat.succ fuel) (w ++ o :: (l ++ [c])) = replBracketLabel w o l c := by
  rcases List.exists_cons_of_ne_nil hw with ⟨a, w', rfl⟩
  rw [show (a :: w') ++ o :: (l ++ [c]) = a :: (w' ++ o :: (l ++ [c])) by simp]
  rw [scanReplace]
  rw [show a :: (w' ++ o :: (l ++ [c])) = (a :: w') ++ o :: (l ++ [c]) by simp]
  rw [tryMatch_exact (a :: w') l o c (by simp) hwall ho hl hlnc hc]
  simp [scanReplace]

theorem labelQuoted_wrapped (l : List Char)
    (hnl : ∀ x ∈ l, (x = '\n' ∨ x = '\r') → False) :
    labelQuoted ('"' :: (l ++ ['"'])) = true := by
  unfold labelQuoted
  have htrim : trimChars ('"' :: (l ++ ['"'])) = '"' :: (l ++ ['"']) := by
    refine trimChars_eq_self _ ?_ ?_
    · intro c hc
      simp at hc
      subst hc
      decide
    · intro c hc
      rw [show ('"' :: (l ++ ['"'])) = ('"' :: l) ++ ['"'] by simp] at hc
      rw [List.getLast?_concat] at hc
      have : c = '"' := by injection hc with h; exact h.symm
      subst this
      decide
  rw [htrim]
  simp only [List.getLast?_concat, List.dropLast_concat]
  simp only [isQuoteChar]
  simp only [Bool.and_eq_true, List.all_eq_true]
  refine ⟨⟨by decide, by decide⟩, ?_⟩
  intro x hx
  have hx2 := hnl x hx
  have hx3 : x ≠ '\n' := fun hh => hx2 (Or.inl hh)
  have hx4 : x ≠ '\x0d' := fun hh => hx2 (Or.inr hh)
  simp [hx3, hx4]

theorem prepareChart_eq_scan (full : List Char)
    (hhead : ∀ c, full.head? = some c → isJsWs c = false)
    (hlast : ∀ c, full.getLast? = some c → isJsWs c = false)
    (hnb : ∀ c ∈ full, c ≠ '\\') :
    prepareChart (String.mk full) = String.mk (scanReplace full.length full) := by
  show String.mk (scanReplace (unescapeNewlines (trimChars (String.mk full).data)).length
      (unescapeNewlines (trimChars (String.mk full).data))) = _
  rw [show (String.mk full).data = full from rfl]
  rw [trimChars_eq_self full hhead hlast, unescapeNewlines_eq_self full hnb]

/-- C9 (amended: `prepareChart` is *not* idempotent on every string — see
the counterexample — but the spec's label behaviour holds in general and
those outputs are fixed points): for a node written as a `\w+` run
followed by a bracketed label (word run `w`, label `l` with no closing
bracket and no backslash), (1) a label that is not already quote-wrapped
and contains a grammar-breaking character (with no line terminator in it)
is wrapped in double quotes exactly once, and applying `prepareChart` to
the result returns it unchanged; (2) a label already passing the
quote-wrapped test is left unchanged; (3) a label with no
grammar-breaking character is left unchanged. -/
theorem prepareChart_label_quoting (w l : List Char)
    (hw : w ≠ []) (hwall : ∀ x ∈ w, isWordChar x = true)
    (hl : l ≠ []) (hlnc : ∀ x ∈ l, isCloserChar x = false)
    (hlnb : ∀ x ∈ l, x ≠ '\\') :
    ((labelQuoted l = false → hasSpecialChar l = true →
        (∀ x ∈ l, (x = '\n' ∨ x = '\r') → False) →
        prepareChart (String.mk (w ++ '[' :: (l ++ [']']))) =
          String.mk (w ++ '[' :: ('"' :: (l ++ ['"']) ++ [']'])) ∧
        prepareChart (String.mk (w ++ '[' :: ('"' :: (l ++ ['"']) ++ [']']))) =
          String.mk (w ++ '[' :: ('"' :: (l ++ ['"']) ++ [']']))))
    ∧ (labelQuoted l = true →
        prepareChart (String.mk (w ++ '[' :: (l ++ [']']))) =
          String.mk (w ++ '[' :: (l ++ [']'])))
    ∧ (hasSpecialChar l = false →
        prepareChart (String.mk (w ++ '[' :: (l ++ [']']))) =
          String.mk (w ++ '[' :: (l ++ [']']))) := by
  rcases List.exists_cons_of_ne_nil hw with ⟨a, w', rfl⟩
  have hha : isJsWs a = false := isWordChar_not_ws a (hwall a (by simp))
  have hscan1 : prepareChart (String.mk ((a :: w') ++ '[' :: (l ++ [']']))) =
      String.mk (scanReplace ((a :: w') ++ '[' :: (l ++ [']'])).length
        ((a :: w') ++ '[' :: (l ++ [']']))) := by
    refine prepareChart_eq_scan _ ?_ ?_ ?_
    · intro c hc
      simp at hc
      subst hc
      exact hha
    · intro c hc
      rw [show (a :: w') ++ '[' :: (l ++ [']']) = ((a :: w') ++ '[' :: l) ++ [']'] by simp] at hc
      rw [List.getLast?_concat] at hc
      have : c = ']' := by injection hc with h; exact h.symm
      subst this
      decide
    · intro c hc
      simp at hc
      casesm* _ ∨ _
      all_goals
        first
          | (exact hlnb _ (by assumption))
          | (subst_vars; decide)
          | (exact isWordChar_ne_backslash _ (hwall _ (by simp [*])))
  have hlen1 : ((a :: w') ++ '[' :: (l ++ [']'])).length =
      Nat.succ ((w' ++ '[' :: (l ++ [']'])).length) := by simp
  have hstep1 : scanReplace ((a :: w') ++ '[' :: (l ++ [']'])).length
      ((a :: w') ++ '[' :: (l ++ [']'])) = replBracketLabel (a :: w') '[' l ']' := by
    rw [hlen1]
    exact scanReplace_single (a :: w') l '[' ']' _ (by simp) hwall (by decide) hl hlnc (by decide)
  refine ⟨?_, ?_, ?_⟩
  · intro hnq hsp hnl
    constructor
    · rw [hscan1, hstep1]
      unfold replBracketLabel
      rw [hnq]
      simp only [Bool.false_eq_true, if_false, hsp, if_true]
      congr 1
      simp
    · have hl2nc : ∀ x ∈ '"' :: (l ++ ['"']), isCloserChar x = false := by
        intro x hx
        simp at hx
        rcases hx with hx | hx | hx
        · subst hx; decide
        · exact hlnc x hx
        · subst hx; decide
      have hscan2 : prepareChart (String.mk ((a :: w') ++ '[' :: (('"' :: (l ++ ['"'])) ++ [']']))) =
          String.mk (scanReplace ((a :: w') ++ '[' :: (('"' :: (l ++ ['"'])) ++ [']'])).length
            ((a :: w') ++ '[' :: (('"' :: (l ++ ['"'])) ++ [']']))) := by
        refine prepareChart_eq_scan _ ?_ ?_ ?_
        · intro c hc
          simp at hc
          subst hc
          exact hha
        · intro c hc
          rw [show (a :: w') ++ '[' :: (('"' :: (l ++ ['"'])) ++ [']']) =
              ((a :: w') ++ '[' :: ('"' :: (l ++ ['"']))) ++ [']'] by simp] at hc
          rw [List.getLast?_concat] at hc
          have : c = ']' := by injection hc with h; exact h.symm
          subst this
          decide
        · intro c hc
          simp at hc
          casesm* _ ∨ _
          all_goals
            first
              | (exact hlnb _ (by assumption))
              | (subst_vars; decide)
              | (exact isWordChar_ne_backslash _ (hwall _ (by simp [*])))
      have hstep2 : scanReplace ((a :: w') ++ '[' :: (('"' :: (l ++ ['"'])) ++ [']'])).length
          ((a :: w') ++ '[' :: (('"' :: (l ++ ['"'])) ++ [']'])) =
          replBracketLabel (a :: w') '[' ('"' :: (l ++ ['"'])) ']' := by
        rw [show ((a :: w') ++ '[' :: (('"' :: (l ++ ['"'])) ++ [']'])).length =
            Nat.succ ((w' ++ '[' :: (('"' :: (l ++ ['"'])) ++ [']'])).length) by simp]
        exact scanReplace_single (a :: w') ('"' :: (l ++ ['"'])) '[' ']' _
          (by simp) hwall (by decide) (by simp) hl2nc (by decide)
      rw [hscan2, hstep2]
      unfold replBracketLabel
      rw [labelQuoted_wrapped l hnl]
      simp
  · intro hq
    rw [hscan1, hstep1]
    unfold replBracketLabel
    rw [hq]
    simp
  · intro hsp
    rw [hscan1, hstep1]
    unfold replBracketLabel
    rw [hsp]
    by_cases hq : labelQuoted l
    · rw [if_pos (by simp [hq])]
      simp
    · rw [if_neg (by simp [hq])]
      simp

theorem prepareChart_label_quoting_witness :
    prepareChart "A[foo/bar]" = "A[\"foo/bar\"]" ∧
    prepareChart (prepareChart "A[foo/bar]") = prepareChart "A[foo/bar]" ∧
    prepareChart "B[\"x/y\"]" = "B[\"x/y\"]" := by
  have h := prepareChart_label_quoting ['A'] ['f', 'o', 'o', '/', 'b', 'a', 'r']
    (by decide) (by decide) (by decide) (by decide) (by decide)
  obtain ⟨h1, h2⟩ := h.1 (by decide) (by decide) (by decide)
  have hq := prepareChart_label_quoting ['B'] ['"', 'x', '/', 'y', '"']
    (by decide) (by decide) (by decide) (by decide) (by decide)
  have h3 : prepareChart "B[\"x/y\"]" = "B[\"x/y\"]" := hq.2.1 (by decide)
  have h1' : prepareChart "A[foo/bar]" = "A[\"foo/bar\"]" := h1
  have h2' : prepareChart "A[\"foo/bar\"]" = "A[\"foo/bar\"]" := h2
  refine ⟨h1', ?_, h3⟩
  rw [h1', h2']
